import Mathlib

/-!
Verification of the content-delivery pipeline specified for the
`nextjs-rendering-patterns-demo` repository.

The repository's pages (`src/app/ssr-standard/page.tsx`,
`src/app/rsc-optimal/page.tsx`, `src/app/csr-anti/page.tsx`) delegate the
fetch/cache/stream orchestration to the surrounding framework; the spec
re-expresses that engine (Cache Store, Fetch Task Scheduler, Revalidation
Controller, Composition Engine) explicitly.  Those components are modelled
here from the spec's words; the request handlers (`GET`, `POST`) and the
`getProducts` helpers, which do appear verbatim in the source, are embedded
from the source.
-/

namespace Pipeline

/-- Modelled from the spec: the `freshness` policy of a fragment descriptor
(§3): `NoCache`, `TimedCache{ttl}`, or `StaticCache`. -/
inductive Freshness where
  | noCache : Freshness
  | timedCache (ttl : Nat) : Freshness
  | staticCache : Freshness
deriving DecidableEq, Repr

/-- Modelled from the spec: a `CacheEntry` (§3) owned by the Cache Store.
`expiresAt = none` means static / never expires until explicitly
invalidated.  `Evicted` entries are removed from the store outright, so the
store only ever holds entries whose state (computed lazily at read time) is
`Fresh` or `Stale`. -/
structure CacheEntry (V : Type) where
  value : V
  tags : List String
  createdAt : Nat
  expiresAt : Option Nat
deriving DecidableEq, Repr

/-- Modelled from the spec: the Cache Store (§4.1), a key→entry map.  The
tag index is derived from the entries (a key appears under a tag iff its
entry is present — hence not Evicted — and lists that tag, §3). -/
structure CacheStore (V : Type) where
  entries : List (String × CacheEntry V)
deriving DecidableEq, Repr

namespace CacheStore

/-- The empty store. -/
def empty (V : Type) : CacheStore V := ⟨[]⟩

/-- Look up the raw entry for a key. -/
def lookup (s : CacheStore V) (key : String) : Option (CacheEntry V) :=
  (s.entries.find? (fun p => p.1 = key)).map Prod.snd

/-- The derived tag index (§3): keys currently holding a tag. -/
def tagIndex (s : CacheStore V) (tag : String) : List String :=
  (s.entries.filter (fun p => tag ∈ p.2.tags)).map Prod.fst

/-- Entry state at read time (§3): `Fresh` until `now > expiresAt`,
`Stale` afterwards; entries with no expiry are always fresh. -/
inductive EntryState where
  | fresh : EntryState
  | stale : EntryState
deriving DecidableEq, Repr

/-- Compute an entry's state lazily at read time (§4.1: lazy expiry). -/
def entryState (e : CacheEntry V) (now : Nat) : EntryState :=
  match e.expiresAt with
  | none => .fresh
  | some t => if now > t then .stale else .fresh

/-- Result of a `get`. -/
inductive GetResult (V : Type) where
  | hit (value : V) (st : EntryState) : GetResult V
  | miss : GetResult V
deriving DecidableEq, Repr

/-- Modelled from the spec: `get(key) → (value, Fresh|Stale) | Miss`
(§4.1).  Pure in-memory lookup with expiry check at read time.  A stale
entry is served (as `Stale`) only when the caller opts into
stale-while-revalidate (`allowStale`); otherwise a stale entry is treated
as a miss (§3). -/
def get (s : CacheStore V) (key : String) (now : Nat) (allowStale : Bool) :
    GetResult V :=
  match s.lookup key with
  | none => .miss
  | some e =>
    match entryState e now with
    | .fresh => .hit e.value .fresh
    | .stale => if allowStale then .hit e.value .stale else .miss

/-- Expiry time induced by a freshness policy at write time. -/
def expiryOf (f : Freshness) (now : Nat) : Option Nat :=
  match f with
  | .timedCache ttl => some (now + ttl)
  | _ => none

/-- Modelled from the spec: `put(key, value, tags, freshness)` (§4.1).
Overwrites any prior entry for `key` and updates tag-index membership
(derived).  Entries are never written for `NoCache` fragments (§4.1). -/
def put (s : CacheStore V) (key : String) (value : V) (tags : List String)
    (freshness : Freshness) (now : Nat) : CacheStore V :=
  match freshness with
  | .noCache => s
  | f =>
    ⟨(key, ⟨value, tags, now, expiryOf f now⟩) ::
      s.entries.filter (fun p => ¬ p.1 = key)⟩

/-- Modelled from the spec: `invalidateKey(key) → count` (§4.3, §4.1).
Evicts the entry (removing it from the store and hence from the derived
tag index); returns 1 if an entry existed else 0. -/
def invalidateKey (s : CacheStore V) (key : String) : CacheStore V × Nat :=
  match s.lookup key with
  | some _ => (⟨s.entries.filter (fun p => ¬ p.1 = key)⟩, 1)
  | none => (s, 0)

/-- Modelled from the spec: `invalidateTag(tag) → count` (§4.1).  Evicts
every key currently indexed under `tag`; returns the number evicted. -/
def invalidateTag (s : CacheStore V) (tag : String) : CacheStore V × Nat :=
  ((⟨s.entries.filter (fun p => ¬ tag ∈ p.2.tags)⟩ : CacheStore V),
    (s.entries.filter (fun p => tag ∈ p.2.tags)).length)

/-- Well-formedness: at most one entry per key (every reachable store
satisfies this; `put` overwrites and the invalidations only remove). -/
def WF (s : CacheStore V) : Prop :=
  (s.entries.map Prod.fst).Nodup

instance (s : CacheStore V) : Decidable s.WF := by
  unfold WF; infer_instance

end CacheStore

end Pipeline

namespace Pipeline
namespace CacheStore

theorem empty_WF (V : Type) : (empty V).WF := by
  simp [WF, empty]

theorem put_WF (s : CacheStore V) (h : s.WF) (key : String) (value : V)
    (tags : List String) (f : Freshness) (now : Nat) :
    (s.put key value tags f now).WF := by
  unfold WF at *
  cases f with
  | noCache => simpa [put] using h
  | timedCache ttl =>
    simp only [put, List.map_cons, List.nodup_cons]
    constructor
    · intro hmem
      rcases List.mem_map.mp hmem with ⟨p, hp, hpk⟩
      rcases List.mem_filter.mp hp with ⟨_, hne⟩
      exact absurd hpk (by simpa using hne)
    · exact List.Nodup.sublist ((List.filter_sublist _).map _) h
  | staticCache =>
    simp only [put, List.map_cons, List.nodup_cons]
    constructor
    · intro hmem
      rcases List.mem_map.mp hmem with ⟨p, hp, hpk⟩
      rcases List.mem_filter.mp hp with ⟨_, hne⟩
      exact absurd hpk (by simpa using hne)
    · exact List.Nodup.sublist ((List.filter_sublist _).map _) h

theorem invalidateKey_WF (s : CacheStore V) (h : s.WF) (key : String) :
    (s.invalidateKey key).1.WF := by
  unfold WF at *
  unfold invalidateKey
  cases hl : s.lookup key with
  | none => simpa using h
  | some e =>
    exact List.Nodup.sublist ((List.filter_sublist _).map _) h

theorem invalidateTag_WF (s : CacheStore V) (h : s.WF) (tag : String) :
    (s.invalidateTag tag).1.WF := by
  unfold WF at *
  exact List.Nodup.sublist ((List.filter_sublist _).map _) h

theorem key_unique : ∀ (l : List (String × CacheEntry V)),
    (l.map Prod.fst).Nodup →
    ∀ x y : String × CacheEntry V, x ∈ l → y ∈ l → x.1 = y.1 → x = y := by
  intro l
  induction l with
  | nil => intro _ x y hx; exact absurd hx (List.not_mem_nil x)
  | cons a t ih =>
    intro h x y hx hy hk
    simp only [List.map_cons, List.nodup_cons] at h
    rcases List.mem_cons.mp hx with hx1 | hx2 <;>
      rcases List.mem_cons.mp hy with hy1 | hy2
    · rw [hx1, hy1]
    · exfalso; apply h.1; rw [← hx1, hk]; exact List.mem_map_of_mem _ hy2
    · exfalso; apply h.1; rw [← hy1, ← hk]; exact List.mem_map_of_mem _ hx2
    · exact ih h.2 x y hx2 hy2 hk

theorem find?_filter_none (l : List (String × CacheEntry V)) (K : String)
    (pred : String × CacheEntry V → Bool)
    (h : l.find? (fun q => q.1 = K) = none) :
    (l.filter pred).find? (fun q => q.1 = K) = none := by
  rw [List.find?_eq_none] at h ⊢
  intro x hx
  exact h x (List.mem_of_mem_filter hx)

theorem find?_filter_removed (l : List (String × CacheEntry V)) (K : String)
    (pred : String × CacheEntry V → Bool) (p : String × CacheEntry V)
    (hnd : (l.map Prod.fst).Nodup)
    (h : l.find? (fun q => q.1 = K) = some p) (hp : pred p = false) :
    (l.filter pred).find? (fun q => q.1 = K) = none := by
  rw [List.find?_eq_none]
  intro x hx hxK
  have hxl : x ∈ l := List.mem_of_mem_filter hx
  have hpl : p ∈ l := List.mem_of_find?_eq_some h
  have hpK : p.1 = K := by simpa using List.find?_some h
  have hxp : x = p := by
    apply key_unique l hnd x p hxl hpl
    rw [hpK]
    exact of_decide_eq_true hxK
  have : pred x = true := List.of_mem_filter hx
  rw [hxp, hp] at this
  exact Bool.false_ne_true this

theorem find?_filter_kept : ∀ (l : List (String × CacheEntry V)) (K : String)
    (pred : String × CacheEntry V → Bool) (p : String × CacheEntry V),
    (l.map Prod.fst).Nodup →
    l.find? (fun q => q.1 = K) = some p → pred p = true →
    (l.filter pred).find? (fun q => q.1 = K) = some p := by
  intro l
  induction l with
  | nil => intro K pred p _ h; exact absurd h (by simp)
  | cons a t ih =>
    intro K pred p hnd h hp
    simp only [List.map_cons, List.nodup_cons] at hnd
    by_cases ha : a.1 = K
    · have hfc : List.find? (fun q => decide (q.1 = K)) (a :: t) = some a :=
        List.find?_cons_of_pos t (decide_eq_true ha)
      have hpa : p = a := by
        rw [hfc] at h
        exact (Option.some_inj.mp h).symm
      subst hpa
      rw [List.filter_cons, if_pos hp]
      exact List.find?_cons_of_pos _ (decide_eq_true ha)
    · have hfc : List.find? (fun q => decide (q.1 = K)) (a :: t) =
          List.find? (fun q => decide (q.1 = K)) t :=
        List.find?_cons_of_neg t (by simp [ha])
      rw [hfc] at h
      rw [List.filter_cons]
      by_cases hfa : pred a = true
      · have hfc2 : List.find? (fun q => decide (q.1 = K))
            (a :: List.filter pred t) =
            List.find? (fun q => decide (q.1 = K)) (List.filter pred t) :=
          List.find?_cons_of_neg _ (by simp [ha])
        rw [if_pos hfa, hfc2]
        exact ih K pred p hnd.2 h hp
      · rw [if_neg hfa]
        exact ih K pred p hnd.2 h hp

theorem lookup_eq_none_iff (s : CacheStore V) (K : String) :
    s.lookup K = none ↔ s.entries.find? (fun q => q.1 = K) = none := by
  unfold lookup
  cases s.entries.find? (fun q => q.1 = K) <;> simp

theorem lookup_invalidateTag_tagged (s : CacheStore V) (h : s.WF)
    (K T : String) (e : CacheEntry V)
    (he : s.lookup K = some e) (ht : T ∈ e.tags) :
    (s.invalidateTag T).1.lookup K = none := by
  unfold lookup at he
  rcases Option.map_eq_some'.mp he with ⟨p, hp, hpe⟩
  rw [lookup_eq_none_iff]
  apply find?_filter_removed s.entries K _ p h hp
  simp [hpe, ht]

theorem lookup_invalidateTag_untagged (s : CacheStore V) (h : s.WF)
    (K T : String) (e : CacheEntry V)
    (he : s.lookup K = some e) (ht : T ∉ e.tags) :
    (s.invalidateTag T).1.lookup K = some e := by
  unfold lookup at he
  rcases Option.map_eq_some'.mp he with ⟨p, hp, hpe⟩
  show ((s.entries.filter _).find? _).map Prod.snd = some e
  rw [find?_filter_kept s.entries K _ p h hp (by simp [hpe, ht])]
  simp [hpe]

theorem lookup_invalidateTag_none (s : CacheStore V) (K T : String)
    (he : s.lookup K = none) :
    (s.invalidateTag T).1.lookup K = none := by
  rw [lookup_eq_none_iff] at he ⊢
  exact find?_filter_none s.entries K _ he

theorem get_of_lookup_none (s : CacheStore V) (K : String) (now : Nat)
    (b : Bool) (h : s.lookup K = none) : s.get K now b = .miss := by
  unfold get
  rw [h]

theorem tagIndex_length (s : CacheStore V) (T : String) :
    (s.tagIndex T).length =
      (s.entries.filter (fun p => T ∈ p.2.tags)).length := by
  unfold tagIndex
  exact List.length_map _ _

theorem lookup_put_timed (s : CacheStore V) (k : String) (v : V)
    (tg : List String) (ttl now : Nat) :
    (s.put k v tg (.timedCache ttl) now).lookup k =
      some ⟨v, tg, now, some (now + ttl)⟩ := by
  show (((k, (⟨v, tg, now, some (now + ttl)⟩ : CacheEntry V)) ::
      s.entries.filter (fun p => ¬ p.1 = k)).find?
        (fun q => q.1 = k)).map Prod.snd = _
  have hfc : List.find? (fun q => decide (q.1 = k))
      ((k, (⟨v, tg, now, some (now + ttl)⟩ : CacheEntry V)) ::
        s.entries.filter (fun p => ¬ p.1 = k)) =
      some (k, ⟨v, tg, now, some (now + ttl)⟩) :=
    List.find?_cons_of_pos _ (by simp)
  rw [hfc]
  rfl

end CacheStore
end Pipeline

namespace Pipeline
open CacheStore

/-- Claim C3: after `invalidateTag(T)` on a cache store, `get(K)` returns
Miss for every key K whose entry was tagged T, `invalidateTag` returns the
number of entries evicted (the keys indexed under T), and the entries of
every key not tagged T are left unchanged by the operation. -/
theorem claim_C3 (V : Type) (s : CacheStore V) (h : s.WF) (T : String) :
    (∀ K e now b, s.lookup K = some e → T ∈ e.tags →
      (s.invalidateTag T).1.get K now b = .miss) ∧
    (s.invalidateTag T).2 = (s.tagIndex T).length ∧
    (∀ K e, s.lookup K = some e → T ∉ e.tags →
      (s.invalidateTag T).1.lookup K = some e) ∧
    (∀ K, s.lookup K = none → (s.invalidateTag T).1.lookup K = none) := by
  refine ⟨?_, ?_, ?_, ?_⟩
  · intro K e now b he ht
    exact get_of_lookup_none _ K now b
      (lookup_invalidateTag_tagged s h K T e he ht)
  · exact (tagIndex_length s T).symm
  · intro K e he ht
    exact lookup_invalidateTag_untagged s h K T e he ht
  · intro K he
    exact lookup_invalidateTag_none s K T he

/-- Concrete instantiation of `claim_C3`, mirroring the spec's scenario:
put `p1` tagged `products`, invalidate the tag, get `p1` → Miss with one
entry evicted, while an unrelated key is untouched. -/
theorem claim_C3_witness :
    ((⟨[("p1", ⟨1, ["products"], 0, none⟩),
        ("x", ⟨2, ["other"], 0, none⟩)]⟩ :
          CacheStore Nat).invalidateTag "products").1.get "p1" 5 true =
        .miss ∧
    ((⟨[("p1", ⟨1, ["products"], 0, none⟩),
        ("x", ⟨2, ["other"], 0, none⟩)]⟩ :
          CacheStore Nat).invalidateTag "products").2 =
      ((⟨[("p1", ⟨1, ["products"], 0, none⟩),
          ("x", ⟨2, ["other"], 0, none⟩)]⟩ :
            CacheStore Nat).tagIndex "products").length ∧
    ((⟨[("p1", ⟨1, ["products"], 0, none⟩),
        ("x", ⟨2, ["other"], 0, none⟩)]⟩ :
          CacheStore Nat).invalidateTag "products").1.lookup "x" =
        some ⟨2, ["other"], 0, none⟩ := by
  have hgen := claim_C3 Nat
    (⟨[("p1", ⟨1, ["products"], 0, none⟩),
       ("x", ⟨2, ["other"], 0, none⟩)]⟩ : CacheStore Nat)
    (by decide) "products"
  exact ⟨hgen.1 "p1" ⟨1, ["products"], 0, none⟩ 5 true (by decide) (by decide),
    hgen.2.1,
    hgen.2.2.1 "x" ⟨2, ["other"], 0, none⟩ (by decide) (by decide)⟩

/-- Claim C4: a `TimedCache{ttl}` entry is Fresh for any `get` within `ttl`
of the `put`; later it is Stale when the caller opts into
stale-while-revalidate and Miss otherwise; the Fresh→Stale transition
happens exactly when the current time exceeds the entry's `expiresAt`. -/
theorem claim_C4 (V : Type) (s : CacheStore V) (v : V) (k : String)
    (tg : List String) (ttl t0 t : Nat) :
    (∃ e, (s.put k v tg (.timedCache ttl) t0).lookup k = some e ∧
      e.expiresAt = some (t0 + ttl) ∧
      (entryState e t = .stale ↔ t0 + ttl < t)) ∧
    (t ≤ t0 + ttl → ∀ b,
      (s.put k v tg (.timedCache ttl) t0).get k t b = .hit v .fresh) ∧
    (t0 + ttl < t →
      (s.put k v tg (.timedCache ttl) t0).get k t true = .hit v .stale ∧
      (s.put k v tg (.timedCache ttl) t0).get k t false = .miss) := by
  have hl := lookup_put_timed s k v tg ttl t0
  refine ⟨⟨⟨v, tg, t0, some (t0 + ttl)⟩, hl, rfl, ?_⟩, ?_, ?_⟩
  · by_cases hlt : t0 + ttl < t <;> simp [entryState, hlt]
  · intro ht b
    have hst : entryState (⟨v, tg, t0, some (t0 + ttl)⟩ : CacheEntry V) t =
        .fresh := by
      simp only [entryState]
      rw [if_neg (by omega)]
    simp [CacheStore.get, hl, hst]
  · intro ht
    have hst : entryState (⟨v, tg, t0, some (t0 + ttl)⟩ : CacheEntry V) t =
        .stale := by
      simp only [entryState]
      rw [if_pos (by omega)]
    exact ⟨by simp [CacheStore.get, hl, hst], by simp [CacheStore.get, hl, hst]⟩

/-- Concrete instantiation of `claim_C4` with `ttl = 50`, written at time
100: Fresh at time 140, Stale / Miss at time 151. -/
theorem claim_C4_witness :
    ((empty Nat).put "p" 42 [] (.timedCache 50) 100).get "p" 140 true =
      .hit 42 .fresh ∧
    ((empty Nat).put "p" 42 [] (.timedCache 50) 100).get "p" 140 false =
      .hit 42 .fresh ∧
    ((empty Nat).put "p" 42 [] (.timedCache 50) 100).get "p" 151 true =
      .hit 42 .stale ∧
    ((empty Nat).put "p" 42 [] (.timedCache 50) 100).get "p" 151 false =
      .miss :=
  ⟨(claim_C4 Nat (empty Nat) 42 "p" [] 50 100 140).2.1 (by decide) true,
   (claim_C4 Nat (empty Nat) 42 "p" [] 50 100 140).2.1 (by decide) false,
   ((claim_C4 Nat (empty Nat) 42 "p" [] 50 100 151).2.2 (by decide)).1,
   ((claim_C4 Nat (empty Nat) 42 "p" [] 50 100 151).2.2 (by decide)).2⟩

end Pipeline

namespace Pipeline
namespace CacheStore

theorem invalidateKey_of_lookup_none (s : CacheStore V) (k : String)
    (h : s.lookup k = none) : s.invalidateKey k = (s, 0) := by
  unfold invalidateKey
  rw [h]

theorem invalidateKey_of_lookup_some (s : CacheStore V) (k : String)
    (e : CacheEntry V) (h : s.lookup k = some e) :
    s.invalidateKey k =
      (⟨s.entries.filter (fun p => ¬ p.1 = k)⟩, 1) := by
  unfold invalidateKey
  rw [h]

theorem lookup_invalidateKey_self (s : CacheStore V) (k : String)
    (e : CacheEntry V) (he : s.lookup k = some e) :
    (s.invalidateKey k).1.lookup k = none := by
  rw [invalidateKey_of_lookup_some s k e he]
  rw [lookup_eq_none_iff, List.find?_eq_none]
  intro x hx hxk
  have hx2 := (List.mem_filter.mp hx).2
  simp only [decide_eq_true_eq] at hx2 hxk
  exact hx2 hxk

theorem notMem_tagIndex_invalidateKey (s : CacheStore V) (k : String)
    (e : CacheEntry V) (he : s.lookup k = some e) (t : String) :
    k ∉ (s.invalidateKey k).1.tagIndex t := by
  rw [invalidateKey_of_lookup_some s k e he]
  intro hmem
  unfold tagIndex at hmem
  rcases List.mem_map.mp hmem with ⟨p, hp, hpk⟩
  have hp2 := (List.mem_filter.mp (List.mem_of_mem_filter hp)).2
  simp only [decide_eq_true_eq] at hp2
  exact hp2 hpk

end CacheStore

open CacheStore

/-- Claim C5: `invalidateKey(key)` returns 1 when an entry for `key`
existed (removing it from the store and from the tag index) and 0 when
none existed; invalidating any tag or key that matches no entries returns
a zero count and never raises an error, so invalidation is idempotent. -/
theorem claim_C5 (V : Type) (s : CacheStore V) (k T : String) :
    (∀ e, s.lookup k = some e →
      (s.invalidateKey k).2 = 1 ∧
      (s.invalidateKey k).1.lookup k = none ∧
      (∀ t, k ∉ (s.invalidateKey k).1.tagIndex t)) ∧
    (s.lookup k = none →
      (s.invalidateKey k).2 = 0 ∧ (s.invalidateKey k).1 = s) ∧
    (s.tagIndex T = [] →
      (s.invalidateTag T).2 = 0 ∧ (s.invalidateTag T).1 = s) ∧
    ((s.invalidateKey k).1.invalidateKey k).2 = 0 ∧
    ((s.invalidateTag T).1.invalidateTag T).2 = 0 := by
  refine ⟨?_, ?_, ?_, ?_, ?_⟩
  · intro e he
    refine ⟨?_, lookup_invalidateKey_self s k e he,
      notMem_tagIndex_invalidateKey s k e he⟩
    rw [invalidateKey_of_lookup_some s k e he]
  · intro he
    rw [invalidateKey_of_lookup_none s k he]
    exact ⟨rfl, rfl⟩
  · intro hti
    have hti' : (s.entries.filter (fun p => T ∈ p.2.tags)).map Prod.fst =
        [] := hti
    have hnil : s.entries.filter (fun p => T ∈ p.2.tags) = [] :=
      List.map_eq_nil_iff.mp hti'
    have hall : ∀ p ∈ s.entries, ¬ T ∈ p.2.tags := by
      intro p hp hT
      have hmem : p ∈ s.entries.filter (fun q => T ∈ q.2.tags) :=
        List.mem_filter.mpr ⟨hp, by simpa using hT⟩
      rw [hnil] at hmem
      exact absurd hmem (List.not_mem_nil p)
    constructor
    · show (s.entries.filter (fun p => T ∈ p.2.tags)).length = 0
      rw [hnil]
      rfl
    · show (⟨s.entries.filter (fun p => ¬ T ∈ p.2.tags)⟩ : CacheStore V) = s
      have hself : s.entries.filter (fun p => ¬ T ∈ p.2.tags) = s.entries :=
        List.filter_eq_self.mpr (fun p hp => by simpa using hall p hp)
      cases s
      simpa using hself
  · cases he : s.lookup k with
    | none =>
      rw [invalidateKey_of_lookup_none s k he,
        invalidateKey_of_lookup_none s k he]
    | some e =>
      rw [invalidateKey_of_lookup_none _ k
        (lookup_invalidateKey_self s k e he)]
  · show ((s.invalidateTag T).1.entries.filter
      (fun p => T ∈ p.2.tags)).length = 0
    have hzero : (s.invalidateTag T).1.entries.filter
        (fun p => T ∈ p.2.tags) = [] := by
      rw [List.filter_eq_nil_iff]
      intro p hp
      have hp2 := (List.mem_filter.mp hp).2
      simp only [decide_eq_true_eq] at hp2
      simpa using hp2
    rw [hzero]
    rfl

/-- Concrete instantiation of `claim_C5`: a one-entry store for key `p1`;
invalidating `p1` yields count 1 and removes it, re-invalidating yields 0,
and invalidating an unmatched tag yields 0 leaving the store unchanged. -/
theorem claim_C5_witness :
    ((⟨[("p1", ⟨7, ["products"], 0, none⟩)]⟩ :
        CacheStore Nat).invalidateKey "p1").2 = 1 ∧
    ((⟨[("p1", ⟨7, ["products"], 0, none⟩)]⟩ :
        CacheStore Nat).invalidateKey "p1").1.lookup "p1" = none ∧
    (((⟨[("p1", ⟨7, ["products"], 0, none⟩)]⟩ :
        CacheStore Nat).invalidateKey "p1").1.invalidateKey "p1").2 = 0 ∧
    ((⟨[("p1", ⟨7, ["products"], 0, none⟩)]⟩ :
        CacheStore Nat).invalidateTag "nosuch").2 = 0 ∧
    ((⟨[("p1", ⟨7, ["products"], 0, none⟩)]⟩ :
        CacheStore Nat).invalidateTag "nosuch").1 =
      (⟨[("p1", ⟨7, ["products"], 0, none⟩)]⟩ : CacheStore Nat) := by
  have hgen := claim_C5 Nat
    (⟨[("p1", ⟨7, ["products"], 0, none⟩)]⟩ : CacheStore Nat) "p1" "nosuch"
  have hsome := hgen.1 ⟨7, ["products"], 0, none⟩ (by decide)
  have htag := hgen.2.2.1 (by decide)
  exact ⟨hsome.1, hsome.2.1, hgen.2.2.2.1, htag.1, htag.2⟩

end Pipeline

namespace Pipeline
namespace CacheStore

theorem find?_filter_of_imp (pk q : String × CacheEntry V → Bool)
    (himp : ∀ x, pk x = true → q x = true) :
    ∀ l : List (String × CacheEntry V),
      (l.filter q).find? pk = l.find? pk := by
  intro l
  induction l with
  | nil => rfl
  | cons a t ih =>
    rw [List.filter_cons]
    by_cases hpa : pk a = true
    · have hqa : q a = true := himp a hpa
      rw [if_pos hqa]
      rw [List.find?_cons_of_pos _ hpa, List.find?_cons_of_pos _ hpa]
    · have hpa' : ¬ pk a = true := hpa
      by_cases hqa : q a = true
      · rw [if_pos hqa]
        rw [List.find?_cons_of_neg _ hpa', List.find?_cons_of_neg _ hpa']
        exact ih
      · rw [if_neg hqa]
        rw [List.find?_cons_of_neg _ hpa']
        exact ih

theorem lookup_put_other (s : CacheStore V) (k' k : String) (v : V)
    (tg : List String) (f : Freshness) (now : Nat) (hk : ¬ k' = k) :
    (s.put k' v tg f now).lookup k = s.lookup k := by
  have hfilter : ∀ ent : CacheEntry V,
      ((⟨(k', ent) :: s.entries.filter (fun p => ¬ p.1 = k')⟩ :
        CacheStore V)).lookup k = s.lookup k := by
    intro ent
    show (List.find? (fun q => decide (q.1 = k))
      ((k', ent) :: s.entries.filter (fun p => ¬ p.1 = k'))).map Prod.snd =
      (List.find? (fun q => decide (q.1 = k)) s.entries).map Prod.snd
    have h1 : List.find? (fun q => decide (q.1 = k))
        ((k', ent) :: s.entries.filter (fun p => ¬ p.1 = k')) =
        List.find? (fun q => decide (q.1 = k))
          (s.entries.filter (fun p => ¬ p.1 = k')) :=
      List.find?_cons_of_neg _ (by simp [hk])
    have h2 : (s.entries.filter (fun p => ¬ p.1 = k')).find?
        (fun q => decide (q.1 = k)) =
        s.entries.find? (fun q => decide (q.1 = k)) := by
      apply find?_filter_of_imp
      intro x hx
      simp only [decide_eq_true_eq] at hx ⊢
      rw [hx]
      intro hcon
      exact hk hcon.symm
    rw [h1, h2]
  cases f with
  | noCache => rfl
  | timedCache ttl => exact hfilter _
  | staticCache => exact hfilter _

theorem lookup_filter_store_none (s : CacheStore V) (k : String)
    (pred : String × CacheEntry V → Bool) (h : s.lookup k = none) :
    ((⟨s.entries.filter pred⟩ : CacheStore V)).lookup k = none := by
  rw [lookup_eq_none_iff] at h ⊢
  exact find?_filter_none s.entries k pred h

end CacheStore

open CacheStore

/-- Modelled from the spec: the operations that mutate the Cache Store
over time (§2, §4.2, §4.3): a fetch task completing successfully writes
through via `put` (skipped for `NoCache` fragments), and the Revalidation
Controller evicts by key or by tag. -/
inductive StoreOp (V : Type) where
  | fetchSuccess (key : String) (value : V) (tags : List String)
      (freshness : Freshness) (now : Nat) : StoreOp V
  | invalKey (key : String) : StoreOp V
  | invalTag (tag : String) : StoreOp V

/-- Modelled from the spec: the effect of one operation on the store. -/
def applyOp (s : CacheStore V) : StoreOp V → CacheStore V
  | .fetchSuccess k v tg f now => s.put k v tg f now
  | .invalKey k => (s.invalidateKey k).1
  | .invalTag t => (s.invalidateTag t).1

/-- Run a sequence of store operations. -/
def runOps (s : CacheStore V) (ops : List (StoreOp V)) : CacheStore V :=
  ops.foldl applyOp s

/-- Every fetch completion for key `k` in this operation (if any) carries
the `NoCache` freshness policy. -/
def NoCacheFor (k : String) : StoreOp V → Prop
  | .fetchSuccess k' _ _ f _ => k' = k → f = .noCache
  | _ => True

theorem lookup_none_applyOp (s : CacheStore V) (k : String) (op : StoreOp V)
    (h0 : s.lookup k = none) (hop : NoCacheFor k op) :
    (applyOp s op).lookup k = none := by
  cases op with
  | fetchSuccess k' v tg f now =>
    by_cases hk : k' = k
    · have hf : f = .noCache := hop hk
      subst hf
      exact h0
    · show (s.put k' v tg f now).lookup k = none
      rw [lookup_put_other s k' k v tg f now hk]
      exact h0
  | invalKey k'' =>
    show ((s.invalidateKey k'').1).lookup k = none
    cases he : s.lookup k'' with
    | none => rw [invalidateKey_of_lookup_none s k'' he]; exact h0
    | some e =>
      rw [invalidateKey_of_lookup_some s k'' e he]
      exact lookup_filter_store_none s k _ h0
  | invalTag t =>
    exact lookup_filter_store_none s k _ h0

/-- Claim C7: a fragment whose freshness policy is `NoCache` never writes
an entry to the Cache Store — a `put` with `NoCache` freshness is the
identity, and after any sequence of operations whose fetch completions for
a key all carry `NoCache`, the store still holds no entry for that key. -/
theorem claim_C7 (V : Type) (s : CacheStore V) (k : String)
    (ops : List (StoreOp V)) (h0 : s.lookup k = none)
    (hops : ∀ op ∈ ops, NoCacheFor k op) :
    (runOps s ops).lookup k = none ∧
    (∀ v tg now, s.put k v tg .noCache now = s) := by
  constructor
  · induction ops generalizing s with
    | nil => exact h0
    | cons op rest ih =>
      show (runOps (applyOp s op) rest).lookup k = none
      exact ih (applyOp s op)
        (lookup_none_applyOp s k op h0 (hops op (List.mem_cons_self op rest)))
        (fun o ho => hops o (List.mem_cons_of_mem op ho))
  · intro v tg now
    rfl

/-- Concrete instantiation of `claim_C7`: a `NoCache` fetch completion for
key `k` followed by a tag invalidation leaves the (initially empty) store
without any entry for `k`. -/
theorem claim_C7_witness :
    (runOps (empty Nat)
      [StoreOp.fetchSuccess "k" 7 ["products"] .noCache 3,
       StoreOp.invalTag "products"]).lookup "k" = none ∧
    (empty Nat).put "k" 7 ["products"] .noCache 3 = empty Nat :=
  ⟨(claim_C7 Nat (empty Nat) "k"
      [StoreOp.fetchSuccess "k" 7 ["products"] .noCache 3,
       StoreOp.invalTag "products"]
      rfl
      (by
        intro op hop
        rcases List.mem_cons.mp hop with h1 | h2
        · subst h1; intro _; rfl
        · rcases List.mem_cons.mp h2 with h3 | h4
          · subst h3; trivial
          · exact absurd h4 (List.not_mem_nil op))).1,
   (claim_C7 Nat (empty Nat) "k" [] rfl
      (by intro op hop; exact absurd hop (List.not_mem_nil op))).2
     7 ["products"] 3⟩

end Pipeline

namespace Pipeline

/-- Modelled from the spec: a `FetchTask` (§3) — one in-flight fetch for a
given `cacheKey`, with a count of subscribers awaiting its result. -/
structure FetchTask where
  cacheKey : String
  subscribers : Nat
deriving DecidableEq, Repr

/-- Modelled from the spec: the Fetch Task Scheduler's shared state (§4.2,
§5): the registry of in-flight tasks plus the log of invocations of the
underlying fetch functions (appended each time a new task actually invokes
its descriptor's fetch). -/
structure Scheduler where
  tasks : List FetchTask
  invocations : List String
deriving DecidableEq, Repr

namespace Scheduler

/-- The initial scheduler state: no in-flight task, nothing invoked. -/
def init : Scheduler := ⟨[], []⟩

/-- Modelled from the spec: `resolve(descriptor)` (§4.2).  If a FetchTask
exists for the cacheKey, attach as one more subscriber (coalescing, no new
fetch); otherwise create a task with one subscriber and invoke the
underlying fetch. -/
def resolveStep (st : Scheduler) (key : String) : Scheduler :=
  if st.tasks.any (fun t => t.cacheKey = key) then
    { st with tasks := st.tasks.map (fun t =>
        if t.cacheKey = key then { t with subscribers := t.subscribers + 1 }
        else t) }
  else
    { tasks := ⟨key, 1⟩ :: st.tasks,
      invocations := st.invocations ++ [key] }

/-- Modelled from the spec: task completion (§4.2) — on success or failure
all subscribers are notified and the task is removed. -/
def completeStep (st : Scheduler) (key : String) : Scheduler :=
  { st with tasks := st.tasks.filter (fun t => ¬ t.cacheKey = key) }

/-- An atomic scheduler event: some composition request resolves a key, or
an in-flight task for a key completes. -/
inductive SchedOp where
  | resolve (key : String) : SchedOp
  | complete (key : String) : SchedOp
deriving DecidableEq, Repr

/-- Apply one scheduler event. -/
def applySched (st : Scheduler) : SchedOp → Scheduler
  | .resolve k => st.resolveStep k
  | .complete k => st.completeStep k

/-- Run a sequence of interleaved scheduler events. -/
def runSched (st : Scheduler) (ops : List SchedOp) : Scheduler :=
  ops.foldl applySched st

/-- The per-key uniqueness invariant (§3): at most one FetchTask per
cacheKey at any instant. -/
def TasksWF (st : Scheduler) : Prop :=
  (st.tasks.map FetchTask.cacheKey).Nodup

/-- Resolving the same key `n` times in a row, with no intervening
completion. -/
def resolveN (st : Scheduler) (key : String) : Nat → Scheduler
  | 0 => st
  | n + 1 => (resolveN st key n).resolveStep key

theorem resolveStep_keys (st : Scheduler) (key : String) :
    (st.resolveStep key).tasks.map FetchTask.cacheKey =
      if st.tasks.any (fun t => t.cacheKey = key) then
        st.tasks.map FetchTask.cacheKey
      else key :: st.tasks.map FetchTask.cacheKey := by
  unfold resolveStep
  by_cases h : st.tasks.any (fun t => t.cacheKey = key)
  · rw [if_pos h, if_pos h]
    simp only [List.map_map]
    apply List.map_congr_left
    intro t _
    by_cases ht : t.cacheKey = key
    · simp [ht]
    · simp [ht]
  · rw [if_neg h, if_neg h]
    rfl

theorem resolveStep_WF (st : Scheduler) (key : String) (h : TasksWF st) :
    TasksWF (st.resolveStep key) := by
  unfold TasksWF at *
  rw [resolveStep_keys]
  by_cases hc : st.tasks.any (fun t => t.cacheKey = key)
  · rw [if_pos hc]; exact h
  · rw [if_neg hc]
    rw [List.nodup_cons]
    refine ⟨?_, h⟩
    intro hmem
    rcases List.mem_map.mp hmem with ⟨t, ht, htk⟩
    apply hc
    rw [List.any_eq_true]
    exact ⟨t, ht, by simp [htk]⟩

theorem completeStep_WF (st : Scheduler) (key : String) (h : TasksWF st) :
    TasksWF (st.completeStep key) := by
  unfold TasksWF at *
  exact List.Nodup.sublist ((List.filter_sublist _).map _) h

theorem runSched_WF (st : Scheduler) (ops : List SchedOp) (h : TasksWF st) :
    TasksWF (runSched st ops) := by
  induction ops generalizing st with
  | nil => exact h
  | cons op rest ih =>
    show TasksWF (runSched (applySched st op) rest)
    apply ih
    cases op with
    | resolve k => exact resolveStep_WF st k h
    | complete k => exact completeStep_WF st k h

theorem resolveN_coalesces (st : Scheduler) (key : String)
    (h : st.tasks.any (fun t => t.cacheKey = key) = false) :
    ∀ n, 0 < n →
      (resolveN st key n).invocations = st.invocations ++ [key] ∧
      (resolveN st key n).tasks = ⟨key, n⟩ :: st.tasks := by
  have hnone : ∀ t ∈ st.tasks, ¬ t.cacheKey = key := by
    intro t ht hcon
    have hany : st.tasks.any (fun t => t.cacheKey = key) = true := by
      rw [List.any_eq_true]
      exact ⟨t, ht, by simp [hcon]⟩
    rw [hany] at h
    simp at h
  have base : resolveN st key 1 =
      ⟨⟨key, 1⟩ :: st.tasks, st.invocations ++ [key]⟩ := by
    show st.resolveStep key = _
    unfold resolveStep
    rw [if_neg (by simp [h])]
  intro n hn
  induction n with
  | zero => exact absurd hn (by simp)
  | succ m ih =>
    cases Nat.eq_zero_or_pos m with
    | inl hm =>
      subst hm
      rw [base]
      exact ⟨rfl, rfl⟩
    | inr hm =>
      rcases ih hm with ⟨hinv, htasks⟩
      have hany : ((resolveN st key m).tasks.any
          (fun t => t.cacheKey = key)) = true := by
        rw [htasks]
        simp
      constructor
      · show ((resolveN st key m).resolveStep key).invocations = _
        unfold resolveStep
        rw [if_pos hany]
        exact hinv
      · show ((resolveN st key m).resolveStep key).tasks = _
        unfold resolveStep
        rw [if_pos hany]
        show (resolveN st key m).tasks.map _ = _
        rw [htasks]
        simp only [List.map_cons]
        have hid : ∀ t ∈ st.tasks,
            (if t.cacheKey = key
              then { t with subscribers := t.subscribers + 1 }
              else t) = id t := by
          intro t ht
          rw [if_neg (hnone t ht)]
          rfl
        rw [List.map_congr_left hid, List.map_id]
        simp

end Scheduler

open Scheduler

/-- Claim C2: at most one FetchTask exists per cacheKey at any instant
(every state reachable from the initial scheduler state satisfies the
per-key uniqueness invariant), and `n` concurrent resolutions of the same
cacheKey — e.g. 100 — cause exactly one invocation of the underlying
fetch, all callers being attached as subscribers of that one task. -/
theorem claim_C2 :
    (∀ ops : List SchedOp, TasksWF (runSched Scheduler.init ops)) ∧
    (∀ (st : Scheduler) (key : String) (n : Nat), 0 < n →
      st.tasks.any (fun t => t.cacheKey = key) = false →
      (resolveN st key n).invocations.count key =
        st.invocations.count key + 1 ∧
      ⟨key, n⟩ ∈ (resolveN st key n).tasks) := by
  constructor
  · intro ops
    exact runSched_WF Scheduler.init ops (by simp [TasksWF, Scheduler.init])
  · intro st key n hn hany
    rcases resolveN_coalesces st key hany n hn with ⟨hinv, htasks⟩
    constructor
    · rw [hinv, List.count_append]
      simp
    · rw [htasks]
      exact List.mem_cons_self _ _

/-- Concrete instantiation of `claim_C2`: 100 concurrent resolutions of
cacheKey `k` from the initial state invoke the underlying fetch exactly
once, leaving one task with 100 subscribers; and an interleaving of
resolves and completions keeps the per-key invariant. -/
theorem claim_C2_witness :
    TasksWF (runSched Scheduler.init
      [.resolve "a", .resolve "b", .resolve "a", .complete "a",
       .resolve "a"]) ∧
    (resolveN Scheduler.init "k" 100).invocations.count "k" =
      Scheduler.init.invocations.count "k" + 1 ∧
    (⟨"k", 100⟩ : FetchTask) ∈ (resolveN Scheduler.init "k" 100).tasks :=
  ⟨claim_C2.1 [.resolve "a", .resolve "b", .resolve "a", .complete "a",
      .resolve "a"],
   claim_C2.2 Scheduler.init "k" 100 (by decide) rfl⟩

end Pipeline

namespace Pipeline

/-- Modelled from the spec: the eventual outcome of a fragment's fetch
(§6): opaque data or an opaque failure. -/
inductive FragResult (α ε : Type) where
  | ok (v : α) : FragResult α ε
  | err (e : ε) : FragResult α ε
deriving DecidableEq, Repr

/-- Modelled from the spec: a FragmentDescriptor (§3) as seen by the
Composition Engine, reduced to what ordered delivery observes: its `id`
and the eventual result of its (opaque, caller-supplied) fetch. -/
structure Descriptor (α ε : Type) where
  id : String
  fetchResult : FragResult α ε
deriving DecidableEq, Repr

/-- Modelled from the spec: one event of a CompositionResult stream (§3):
a content event for a slot (rendered output or error rendering) or the
completion marker. -/
inductive Event (ρ : Type) where
  | content (idx : Nat) (id : String) (out : ρ) : Event ρ
  | done : Event ρ
deriving DecidableEq, Repr

/-- Render a fragment's result with the caller-supplied renderer, or with
the caller-supplied error renderer on failure (§7). -/
def renderResult (rOk : α → ρ) (rErr : ε → ρ) : FragResult α ε → ρ
  | .ok v => rOk v
  | .err e => rErr e

/-- The content event eventually occupying slot `i`. -/
def slotEvent (ds : List (Descriptor α ε)) (rOk : α → ρ) (rErr : ε → ρ)
    (i : Nat) : Event ρ :=
  match ds[i]? with
  | some d => .content i d.id (renderResult rOk rErr d.fetchResult)
  | none => .done

/-- Scan for the first not-yet-completed slot at or after `e`, looking at
most `fuel` slots ahead. -/
def nextGapAux (c : Nat → Bool) : Nat → Nat → Nat
  | 0, e => e
  | fuel + 1, e => if c e then nextGapAux c fuel (e + 1) else e

/-- The first not-yet-completed slot index in `[e, N)`, or `N` when every
slot from `e` on is completed. -/
def nextGap (c : Nat → Bool) (N e : Nat) : Nat :=
  nextGapAux c (N - e) e

/-- Modelled from the spec: the Composition Engine's per-render state
(§4.4): which fragment indices have resolved so far, how many slots have
been emitted (slots are emittable only once every earlier slot is), and
the output stream so far. -/
structure ComposeState (ρ : Type) where
  completed : List Nat
  emitted : Nat
  out : List (Event ρ)

/-- Modelled from the spec: one engine step (§4.4): fragment index `j`
resolves; every slot whose predecessors have all resolved is emitted, in
index order. -/
def cstep (ds : List (Descriptor α ε)) (rOk : α → ρ) (rErr : ε → ρ)
    (st : ComposeState ρ) (j : Nat) : ComposeState ρ :=
  ⟨j :: st.completed,
   nextGap (fun i => decide (i ∈ j :: st.completed)) ds.length st.emitted,
   st.out ++ (List.range' st.emitted
     (nextGap (fun i => decide (i ∈ j :: st.completed)) ds.length
       st.emitted - st.emitted)).map (slotEvent ds rOk rErr)⟩

/-- Modelled from the spec: the CompositionResult stream of one page
render (§4.4): fragments resolve in the arrival order `order`; each slot's
content is emitted once all earlier slots are emitted, and the completion
marker is emitted once every slot has been emitted. -/
def composeStream (ds : List (Descriptor α ε)) (rOk : α → ρ) (rErr : ε → ρ)
    (order : List Nat) : List (Event ρ) :=
  (order.foldl (cstep ds rOk rErr) ⟨[], 0, []⟩).out ++
    (if (order.foldl (cstep ds rOk rErr) ⟨[], 0, []⟩).emitted = ds.length
      then [Event.done] else [])

theorem nextGapAux_le (c : Nat → Bool) :
    ∀ (f e : Nat), e ≤ nextGapAux c f e ∧ nextGapAux c f e ≤ e + f := by
  intro f
  induction f with
  | zero => intro e; exact ⟨Nat.le_refl e, Nat.le_refl e⟩
  | succ g ih =>
    intro e
    simp only [nextGapAux]
    by_cases h : c e = true
    · rw [if_pos h]
      rcases ih (e + 1) with ⟨h1, h2⟩
      exact ⟨le_trans (Nat.le_succ e) h1, by omega⟩
    · rw [if_neg h]
      exact ⟨Nat.le_refl e, by omega⟩

theorem nextGapAux_covered (c : Nat → Bool) :
    ∀ (f e i : Nat), e ≤ i → i < nextGapAux c f e → c i = true := by
  intro f
  induction f with
  | zero =>
    intro e i h1 h2
    simp only [nextGapAux] at h2
    omega
  | succ g ih =>
    intro e i h1 h2
    simp only [nextGapAux] at h2
    by_cases h : c e = true
    · rw [if_pos h] at h2
      rcases Nat.eq_or_lt_of_le h1 with he | hlt
      · rw [← he]; exact h
      · exact ih (e + 1) i hlt h2
    · rw [if_neg h] at h2
      omega

theorem nextGapAux_stop (c : Nat → Bool) (f e : Nat) (h : c e = false) :
    nextGapAux c f e = e := by
  cases f with
  | zero => rfl
  | succ g => simp [nextGapAux, h]

theorem nextGap_skip (c : Nat → Bool) (N : Nat) :
    ∀ e, e ≤ N → (∀ i, i < e → c i = true) →
      nextGap c N 0 = nextGap c N e := by
  intro e
  induction e with
  | zero => intro _ _; rfl
  | succ m ih =>
    intro hle hpre
    rw [ih (by omega) (fun i hi => hpre i (by omega))]
    unfold nextGap
    have harith : N - m = (N - (m + 1)) + 1 := by omega
    rw [harith]
    simp only [nextGapAux]
    rw [if_pos (hpre m (by omega))]

theorem compose_inv (ds : List (Descriptor α ε)) (rOk : α → ρ)
    (rErr : ε → ρ) :
    ∀ (order : List Nat) (st : ComposeState ρ),
      st.emitted =
        nextGap (fun i => decide (i ∈ st.completed)) ds.length 0 →
      st.out = (List.range st.emitted).map (slotEvent ds rOk rErr) →
      (order.foldl (cstep ds rOk rErr) st).completed =
          order.reverse ++ st.completed ∧
      (order.foldl (cstep ds rOk rErr) st).emitted =
        nextGap (fun i =>
            decide (i ∈ (order.foldl (cstep ds rOk rErr) st).completed))
          ds.length 0 ∧
      (order.foldl (cstep ds rOk rErr) st).out =
        (List.range ((order.foldl (cstep ds rOk rErr) st).emitted)).map
          (slotEvent ds rOk rErr) := by
  intro order
  induction order with
  | nil =>
    intro st h1 h2
    exact ⟨by simp, h1, h2⟩
  | cons j rest ih =>
    intro st h1 h2
    have hle : st.emitted ≤ ds.length := by
      rw [h1]
      have h := (nextGapAux_le
        (fun i => decide (i ∈ st.completed)) ds.length 0).2
      simpa [nextGap] using h
    have hcov : ∀ i, i < st.emitted →
        decide (i ∈ st.completed) = true := by
      intro i hi
      refine nextGapAux_covered (fun i => decide (i ∈ st.completed))
        ds.length 0 i (Nat.zero_le i) ?_
      rw [h1] at hi
      simpa [nextGap] using hi
    have hcov' : ∀ i, i < st.emitted →
        decide (i ∈ j :: st.completed) = true := by
      intro i hi
      have h := hcov i hi
      simp only [decide_eq_true_eq] at h ⊢
      exact List.mem_cons_of_mem j h
    have hemit' : (cstep ds rOk rErr st j).emitted =
        nextGap (fun i => decide (i ∈ (cstep ds rOk rErr st j).completed))
          ds.length 0 :=
      (nextGap_skip _ ds.length st.emitted hle hcov').symm
    have hout' : (cstep ds rOk rErr st j).out =
        (List.range ((cstep ds rOk rErr st j).emitted)).map
          (slotEvent ds rOk rErr) := by
      show st.out ++ (List.range' st.emitted
          (nextGap (fun i => decide (i ∈ j :: st.completed)) ds.length
            st.emitted - st.emitted)).map (slotEvent ds rOk rErr) = _
      rw [h2, ← List.map_append]
      have hEE : st.emitted ≤
          nextGap (fun i => decide (i ∈ j :: st.completed)) ds.length
            st.emitted :=
        (nextGapAux_le _ _ st.emitted).1
      have hr : List.range st.emitted ++
          List.range' st.emitted
            (nextGap (fun i => decide (i ∈ j :: st.completed)) ds.length
              st.emitted - st.emitted) =
          List.range (nextGap (fun i => decide (i ∈ j :: st.completed))
            ds.length st.emitted) := by
        rw [List.range_eq_range', List.range_eq_range']
        have hx := List.range'_append_1 0 st.emitted
          (nextGap (fun i => decide (i ∈ j :: st.completed)) ds.length
            st.emitted - st.emitted)
        rw [Nat.zero_add] at hx
        rw [Nat.sub_add_cancel hEE] at hx
        exact hx
      rw [hr]
      rfl
    have hres := ih (cstep ds rOk rErr st j) hemit' hout'
    refine ⟨?_, hres.2.1, hres.2.2⟩
    rw [show ((j :: rest).foldl (cstep ds rOk rErr) st) =
      (rest.foldl (cstep ds rOk rErr) (cstep ds rOk rErr st j)) from rfl]
    rw [hres.1]
    show rest.reverse ++ (j :: st.completed) = _
    simp

theorem composeStream_eq (ds : List (Descriptor α ε)) (rOk : α → ρ)
    (rErr : ε → ρ) (order : List Nat)
    (hmem : ∀ i, i < ds.length → i ∈ order) :
    composeStream ds rOk rErr order =
      (List.range ds.length).map (slotEvent ds rOk rErr) ++
        [Event.done] := by
  rcases compose_inv ds rOk rErr order ⟨[], 0, []⟩
      ((nextGapAux_stop _ ds.length 0 rfl).symm) rfl with ⟨hc, he, ho⟩
  have hfin : (order.foldl (cstep ds rOk rErr) ⟨[], 0, []⟩).emitted =
      ds.length := by
    rw [he]
    have hAll : ∀ i, i < ds.length →
        decide (i ∈ (order.foldl (cstep ds rOk rErr)
          (⟨[], 0, []⟩ : ComposeState ρ)).completed) = true := by
      intro i hi
      rw [hc]
      simp only [decide_eq_true_eq, List.append_nil, List.mem_reverse]
      exact hmem i hi
    rw [nextGap_skip _ ds.length ds.length (Nat.le_refl _) hAll]
    unfold nextGap
    rw [Nat.sub_self]
    rfl
  unfold composeStream
  rw [ho, hfin, if_pos rfl]

end Pipeline

namespace Pipeline

/-- Claim C1: for every composition request over a list of N fragment
descriptors, the output stream is exactly the N content events (one per
fragment — its rendered output or an error rendering) in the order of the
fragments' original indices, followed by exactly one completion marker,
regardless of the order in which the fragments' fetches complete. -/
theorem claim_C1 (α ε ρ : Type) (ds : List (Descriptor α ε)) (rOk : α → ρ)
    (rErr : ε → ρ) (order : List Nat)
    (h : order.Perm (List.range ds.length)) :
    composeStream ds rOk rErr order =
      (List.range ds.length).map (slotEvent ds rOk rErr) ++
        [Event.done] ∧
    (∀ i (hi : i < ds.length), slotEvent ds rOk rErr i =
      .content i (ds.get ⟨i, hi⟩).id
        (renderResult rOk rErr (ds.get ⟨i, hi⟩).fetchResult)) ∧
    (composeStream ds rOk rErr order).length = ds.length + 1 := by
  have hmem : ∀ i, i < ds.length → i ∈ order := by
    intro i hi
    rw [h.mem_iff]
    exact List.mem_range.mpr hi
  have heq := composeStream_eq ds rOk rErr order hmem
  refine ⟨heq, ?_, ?_⟩
  · intro i hi
    unfold slotEvent
    rw [List.getElem?_eq_getElem hi]
    rfl
  · rw [heq]
    simp

/-- Concrete instantiation of `claim_C1`: two fragments, the second of
which resolves first (`order = [1, 0]`); the stream is still slot 0, slot
1, completion marker, and has length 3. -/
theorem claim_C1_witness :
    composeStream
      [(⟨"a", .ok 10⟩ : Descriptor Nat String), ⟨"b", .err "boom"⟩]
      (fun v => v) (fun _ => 99) [1, 0] =
      (List.range 2).map (slotEvent
        [(⟨"a", .ok 10⟩ : Descriptor Nat String), ⟨"b", .err "boom"⟩]
        (fun v => v) (fun _ => 99)) ++ [Event.done] ∧
    (composeStream
      [(⟨"a", .ok 10⟩ : Descriptor Nat String), ⟨"b", .err "boom"⟩]
      (fun v => v) (fun _ => 99) [1, 0]).length = 2 + 1 :=
  ⟨(claim_C1 Nat String Nat
      [⟨"a", .ok 10⟩, ⟨"b", .err "boom"⟩]
      (fun v => v) (fun _ => 99) [1, 0] (by decide)).1,
   (claim_C1 Nat String Nat
      [⟨"a", .ok 10⟩, ⟨"b", .err "boom"⟩]
      (fun v => v) (fun _ => 99) [1, 0] (by decide)).2.2⟩

/-- Claim C6: the failure of one fragment's fetch is confined to that
fragment's own output slot, which is filled by the caller-supplied
errorRenderer; all sibling fragments still emit their content and the
completion marker is still emitted — no single fragment failure aborts the
render. -/
theorem claim_C6 (α ε ρ : Type) (ds : List (Descriptor α ε)) (rOk : α → ρ)
    (rErr : ε → ρ) (order : List Nat) (j : Nat) (e : ε)
    (h : order.Perm (List.range ds.length)) (hj : j < ds.length)
    (he : (ds.get ⟨j, hj⟩).fetchResult = .err e) :
    (composeStream ds rOk rErr order)[j]? =
      some (.content j (ds.get ⟨j, hj⟩).id (rErr e)) ∧
    (∀ i (hi : i < ds.length), i ≠ j →
      (composeStream ds rOk rErr order)[i]? =
        some (.content i (ds.get ⟨i, hi⟩).id
          (renderResult rOk rErr (ds.get ⟨i, hi⟩).fetchResult))) ∧
    (composeStream ds rOk rErr order)[ds.length]? = some .done := by
  have hmem : ∀ i, i < ds.length → i ∈ order := by
    intro i hi
    rw [h.mem_iff]
    exact List.mem_range.mpr hi
  have heq := composeStream_eq ds rOk rErr order hmem
  have hslot : ∀ i, i < ds.length →
      (composeStream ds rOk rErr order)[i]? =
        some (slotEvent ds rOk rErr i) := by
    intro i hi
    rw [heq]
    rw [List.getElem?_append_left (by simpa using hi)]
    rw [List.getElem?_map, List.getElem?_range hi]
    rfl
  refine ⟨?_, ?_, ?_⟩
  · rw [hslot j hj]
    unfold slotEvent
    rw [List.getElem?_eq_getElem hj]
    show some (Event.content j (ds.get ⟨j, hj⟩).id
      (renderResult rOk rErr (ds.get ⟨j, hj⟩).fetchResult)) = _
    rw [he]
    rfl
  · intro i hi _
    rw [hslot i hi]
    unfold slotEvent
    rw [List.getElem?_eq_getElem hi]
    rfl
  · rw [heq]
    rw [List.getElem?_append_right (by simp)]
    simp

/-- Concrete instantiation of `claim_C6`, mirroring the spec's scenario:
fragment `x` (index 1 of 3) rejects with `boom`; its slot holds the
error rendering, the siblings' slots hold their content, and the
completion marker is still emitted. -/
theorem claim_C6_witness :
    (composeStream
      [(⟨"a", .ok 1⟩ : Descriptor Nat String), ⟨"x", .err "boom"⟩,
        ⟨"c", .ok 3⟩] (fun v => v) (fun _ => 0) [2, 0, 1])[1]? =
      some (.content 1 "x" 0) ∧
    (composeStream
      [(⟨"a", .ok 1⟩ : Descriptor Nat String), ⟨"x", .err "boom"⟩,
        ⟨"c", .ok 3⟩] (fun v => v) (fun _ => 0) [2, 0, 1])[0]? =
      some (.content 0 "a" 1) ∧
    (composeStream
      [(⟨"a", .ok 1⟩ : Descriptor Nat String), ⟨"x", .err "boom"⟩,
        ⟨"c", .ok 3⟩] (fun v => v) (fun _ => 0) [2, 0, 1])[2]? =
      some (.content 2 "c" 3) ∧
    (composeStream
      [(⟨"a", .ok 1⟩ : Descriptor Nat String), ⟨"x", .err "boom"⟩,
        ⟨"c", .ok 3⟩] (fun v => v) (fun _ => 0) [2, 0, 1])[3]? =
      some .done :=
  ⟨(claim_C6 Nat String Nat
      [⟨"a", .ok 1⟩, ⟨"x", .err "boom"⟩, ⟨"c", .ok 3⟩]
      (fun v => v) (fun _ => 0) [2, 0, 1] 1 "boom"
      (by decide) (by decide) rfl).1,
   (claim_C6 Nat String Nat
      [⟨"a", .ok 1⟩, ⟨"x", .err "boom"⟩, ⟨"c", .ok 3⟩]
      (fun v => v) (fun _ => 0) [2, 0, 1] 1 "boom"
      (by decide) (by decide) rfl).2.1 0 (by decide) (by decide),
   (claim_C6 Nat String Nat
      [⟨"a", .ok 1⟩, ⟨"x", .err "boom"⟩, ⟨"c", .ok 3⟩]
      (fun v => v) (fun _ => 0) [2, 0, 1] 1 "boom"
      (by decide) (by decide) rfl).2.1 2 (by decide) (by decide),
   (claim_C6 Nat String Nat
      [⟨"a", .ok 1⟩, ⟨"x", .err "boom"⟩, ⟨"c", .ok 3⟩]
      (fun v => v) (fun _ => 0) [2, 0, 1] 1 "boom"
      (by decide) (by decide) rfl).2.2⟩

end Pipeline

namespace Pipeline
namespace Api

/-- A product record as served by the mock API
(`src/app/ssr-standard/page.tsx`, `mockProducts`).  Prices are decimal JS
numbers in the source, carried here as exact rationals; no claim computes
with a price, so the numeric representation is not observable. -/
structure Product where
  id : String
  name : String
  price : Rat
  category : String
  description : String
  inStock : Bool
deriving DecidableEq, Repr

/-- The mock data of `src/app/ssr-standard/page.tsx` (`mockProducts`). -/
def mockProducts : List Product :=
  [⟨"1", "ワイヤレスイヤホン Pro", 29.99, "Electronics",
      "高音質なワイヤレスイヤホン", true⟩,
   ⟨"2", "スマートウォッチ X1", 199.99, "Electronics",
      "フィットネストラッキング機能付き", true⟩,
   ⟨"3", "ノートパソコン Ultra", 1299.99, "Electronics",
      "高性能ノートPC", true⟩,
   ⟨"4", "Bluetoothスピーカー", 79.99, "Electronics",
      "ポータブルスピーカー", true⟩,
   ⟨"5", "ワイヤレスマウス", 24.99, "Accessories",
      "エルゴノミックデザイン", true⟩,
   ⟨"6", "USBメモリ 128GB", 19.99, "Accessories",
      "高速データ転送", true⟩,
   ⟨"7", "ゲーミングキーボード", 89.99, "Gaming",
      "メカニカルキーボード", true⟩,
   ⟨"8", "モニター 27インチ", 349.99, "Electronics",
      "4K解像度対応", true⟩]

/-- ECMAScript `Array.prototype.slice` index resolution: a negative index
counts from the end (clamped below at 0), a non-negative one is clamped
above at the length. -/
def jsIndex (len : Nat) (i : Int) : Nat :=
  if i < 0 then (len + i).toNat else (min i len).toNat

/-- ECMAScript `Array.prototype.slice(start, stop)`: the elements from the
resolved `start` up to (excluding) the resolved `stop`. -/
def jsSlice (l : List α) (start stop : Int) : List α :=
  (l.take (jsIndex l.length stop)).drop (jsIndex l.length start)

/-- The category filter of `GET` (`src/app/ssr-standard/page.tsx` lines
213–218): applied only when `category` is present, non-empty (JS
truthiness) and not the literal `all`; the comparison lower-cases both
sides. -/
def filteredBy (category : Option String) : List Product :=
  match category with
  | none => mockProducts
  | some c =>
    if c = "" ∨ c = "all" then mockProducts
    else mockProducts.filter (fun p => p.category.toLower = c.toLower)

/-- The JSON body returned by `GET /api/products`. -/
structure ProductsResponse where
  products : List Product
  total : Nat
  limit : Int
  offset : Int
  hasMore : Bool
deriving DecidableEq, Repr

/-- Embedded from the source (`src/app/ssr-standard/page.tsx`, `GET`,
lines 203–234): category filter, pagination via
`slice(offset, offset + limit)`, `total` = length of the whole filtered
list, `hasMore` = `offset + limit < filteredProducts.length`.  `limit` and
`offset` arrive as `parseInt` results; the demo-only 300 ms delay and the
`Cache-Control` header carry no data and are not modelled. -/
def GET (category : Option String) (limit offset : Int) :
    ProductsResponse :=
  ⟨jsSlice (filteredBy category) offset (offset + limit),
   (filteredBy category).length,
   limit, offset,
   decide (offset + limit < ((filteredBy category).length : Int))⟩

theorem take_min_length (l : List α) (m : Nat) :
    l.take (min m l.length) = l.take m := by
  by_cases h : m ≤ l.length
  · rw [Nat.min_eq_left h]
  · rw [Nat.min_eq_right (by omega)]
    rw [List.take_length, List.take_of_length_le (by omega)]

theorem jsIndex_nonneg (len : Nat) (i : Int) (h : 0 ≤ i) :
    jsIndex len i = min i.toNat len := by
  unfold jsIndex
  rw [if_neg (by omega)]
  omega

theorem jsSlice_nonneg (l : List α) (offset limit : Int) (ho : 0 ≤ offset)
    (hl : 0 ≤ limit) :
    jsSlice l offset (offset + limit) =
      (l.drop offset.toNat).take limit.toNat := by
  unfold jsSlice
  rw [jsIndex_nonneg _ _ ho, jsIndex_nonneg _ _ (by omega)]
  rw [List.take_drop]
  rw [take_min_length]
  have htn : (offset + limit).toNat = offset.toNat + limit.toNat := by
    omega
  rw [htn]
  by_cases hc : offset.toNat ≤ l.length
  · rw [Nat.min_eq_left hc]
  · rw [Nat.min_eq_right (by omega)]
    rw [List.drop_eq_nil_of_le (by simp),
      List.drop_eq_nil_of_le (by simp; omega)]

end Api

open Api

/-- Claim C8: the `GET /api/products` response's `products` equals the
mock list filtered by category (case-insensitively; absent, empty or
`all` means no filtering) and sliced from `offset` to `offset + limit`
(read as drop/take for the integer parameters in range); `total` is the
length of the whole filtered list, and `hasMore` holds iff
`offset + limit < total`. -/
theorem claim_C8 (category : Option String) (limit offset : Int)
    (hl : 0 ≤ limit) (ho : 0 ≤ offset) :
    (GET category limit offset).products =
      ((filteredBy category).drop offset.toNat).take limit.toNat ∧
    (GET category limit offset).total = (filteredBy category).length ∧
    ((GET category limit offset).hasMore = true ↔
      offset + limit < ((filteredBy category).length : Int)) ∧
    filteredBy none = mockProducts ∧
    filteredBy (some "all") = mockProducts ∧
    (∀ c : String, ¬ c = "" → ¬ c = "all" →
      filteredBy (some c) =
        mockProducts.filter (fun p => p.category.toLower = c.toLower)) := by
  refine ⟨jsSlice_nonneg (filteredBy category) offset limit ho hl,
    rfl, ?_, rfl, rfl, ?_⟩
  · exact decide_eq_true_iff
  · intro c h1 h2
    show (if c = "" ∨ c = "all" then mockProducts
      else mockProducts.filter
        (fun p => p.category.toLower = c.toLower)) = _
    rw [if_neg (by simp [h1, h2])]

/-- Concrete instantiation of `claim_C8`: category `electronics` (testing
case-insensitive matching), `limit = 2`, `offset = 1`. -/
theorem claim_C8_witness :
    (GET (some "electronics") 2 1).products =
      ((filteredBy (some "electronics")).drop 1).take 2 ∧
    (GET (some "electronics") 2 1).total =
      (filteredBy (some "electronics")).length ∧
    ((GET (some "electronics") 2 1).hasMore = true ↔
      (1 : Int) + 2 < ((filteredBy (some "electronics")).length : Int)) :=
  ⟨(claim_C8 (some "electronics") 2 1 (by decide) (by decide)).1,
   (claim_C8 (some "electronics") 2 1 (by decide) (by decide)).2.1,
   (claim_C8 (some "electronics") 2 1 (by decide) (by decide)).2.2.1⟩

end Pipeline

namespace Pipeline
namespace Api

/-- The parsed JSON body of `POST /api/products`; every field may be
absent.  `price` is a JS number, carried as a rational. -/
structure PostBody where
  name : Option String
  price : Option Rat
  category : Option String
  description : Option String
  inStock : Option Bool
deriving DecidableEq, Repr

/-- A created product as echoed by `POST` (the submitted fields plus the
generated `id` — `Date.now().toString()` — and `createdAt`). -/
structure NewProduct where
  id : String
  name : String
  price : Rat
  category : String
  description : String
  inStock : Bool
  createdAt : String
deriving DecidableEq, Repr

/-- The response of `POST /api/products`. -/
inductive PostResponse where
  | badRequest (error : String) : PostResponse
  | created (p : NewProduct) : PostResponse
deriving DecidableEq, Repr

/-- HTTP status of a `POST` response (400 or 201 in the source). -/
def statusOf : PostResponse → Nat
  | .badRequest _ => 400
  | .created _ => 201

/-- JS `x || default` on an optional string: absent and the empty string
(both falsy) give the default. -/
def jsOrDefault (s : Option String) (d : String) : String :=
  match s with
  | none => d
  | some c => if c = "" then d else c

/-- JS truthiness failure of `body.name` (`!body.name`): absent or the
empty string. -/
def nameFalsy (b : PostBody) : Prop :=
  b.name = none ∨ b.name = some ""

/-- JS truthiness failure of `body.price` (`!body.price`): absent or 0. -/
def priceFalsy (b : PostBody) : Prop :=
  b.price = none ∨ b.price = some 0

instance (b : PostBody) : Decidable (nameFalsy b) := by
  unfold nameFalsy; infer_instance

instance (b : PostBody) : Decidable (priceFalsy b) := by
  unfold priceFalsy; infer_instance

/-- Embedded from the source (`src/app/ssr-standard/page.tsx`, `POST`,
lines 237–267): a body that fails to parse (`request.json()` rejects,
`body = none`) is caught and answered 400 `Invalid request body`; a parsed
body with falsy `name` or `price` is answered 400
`Missing required fields`; otherwise 201 with the new product, whose
`category`, `description` and `inStock` take the source defaults
(`|| 'Uncategorized'`, `|| ''`, `?? true`). -/
def POST (body : Option PostBody) (nowId createdAt : String) :
    PostResponse :=
  match body with
  | none => .badRequest "Invalid request body"
  | some b =>
    if nameFalsy b ∨ priceFalsy b then
      .badRequest "Missing required fields: name, price"
    else
      .created ⟨nowId, b.name.getD "", b.price.getD 0,
        jsOrDefault b.category "Uncategorized",
        jsOrDefault b.description "",
        b.inStock.getD true, createdAt⟩

end Api

open Api

/-- Claim C9: `POST /api/products` answers 400 with the
missing-required-fields error exactly when the parsed body's `name` or
`price` is falsy — so `price = 0` or `name = ""` is rejected even though
present — and otherwise answers 201 with a product echoing the submitted
fields plus a generated id and createdAt (optional fields taking the
source defaults); an unparseable body also yields 400. -/
theorem claim_C9 (body : Option PostBody) (nowId createdAt : String) :
    (∀ b, body = some b →
      (POST body nowId createdAt =
          .badRequest "Missing required fields: name, price" ↔
        (nameFalsy b ∨ priceFalsy b))) ∧
    (∀ b, body = some b → ¬ (nameFalsy b ∨ priceFalsy b) →
      POST body nowId createdAt =
        .created ⟨nowId, b.name.getD "", b.price.getD 0,
          jsOrDefault b.category "Uncategorized",
          jsOrDefault b.description "",
          b.inStock.getD true, createdAt⟩ ∧
      statusOf (POST body nowId createdAt) = 201) ∧
    (body = none →
      POST body nowId createdAt = .badRequest "Invalid request body") ∧
    (∀ b, body = some b → b.price = some 0 →
      statusOf (POST body nowId createdAt) = 400) ∧
    (∀ b, body = some b → b.name = some "" →
      statusOf (POST body nowId createdAt) = 400) := by
  refine ⟨?_, ?_, ?_, ?_, ?_⟩
  · intro b hb
    subst hb
    show (if nameFalsy b ∨ priceFalsy b then _ else _) = _ ↔ _
    by_cases h : nameFalsy b ∨ priceFalsy b
    · rw [if_pos h]
      simp [h]
    · rw [if_neg h]
      simp [h]
  · intro b hb h
    subst hb
    constructor
    · show (if nameFalsy b ∨ priceFalsy b then _ else _) = _
      rw [if_neg h]
    · show statusOf (if nameFalsy b ∨ priceFalsy b then _ else _) = 201
      rw [if_neg h]
      rfl
  · intro hb
    subst hb
    rfl
  · intro b hb hp
    subst hb
    show statusOf (if nameFalsy b ∨ priceFalsy b then _ else _) = 400
    have hpf : priceFalsy b := Or.inr hp
    rw [if_pos (Or.inr hpf)]
    rfl
  · intro b hb hn
    subst hb
    show statusOf (if nameFalsy b ∨ priceFalsy b then _ else _) = 400
    have hnf : nameFalsy b := Or.inr hn
    rw [if_pos (Or.inl hnf)]
    rfl

/-- Concrete instantiation of `claim_C9`: a body with `price = 0` and one
with `name = ""` are rejected with 400, a missing body yields the
invalid-body 400, and a well-formed body yields the echoed product. -/
theorem claim_C9_witness :
    statusOf (POST (some ⟨some "Widget", some 0, none, none, none⟩)
      "17" "t0") = 400 ∧
    statusOf (POST (some ⟨some "", some 5, none, none, none⟩)
      "17" "t0") = 400 ∧
    POST none "17" "t0" = .badRequest "Invalid request body" ∧
    POST (some ⟨some "Widget", some 5, some "Electronics", none,
        some false⟩) "17" "t0" =
      .created ⟨"17", "Widget", 5, "Electronics", "", false, "t0"⟩ :=
  ⟨(claim_C9 (some ⟨some "Widget", some 0, none, none, none⟩)
      "17" "t0").2.2.2.1 _ rfl rfl,
   (claim_C9 (some ⟨some "", some 5, none, none, none⟩)
      "17" "t0").2.2.2.2 _ rfl rfl,
   (claim_C9 none "17" "t0").2.2.1 rfl,
   ((claim_C9 (some ⟨some "Widget", some 5, some "Electronics", none,
        some false⟩) "17" "t0").2.1 _ rfl (by decide)).1⟩

end Pipeline

namespace Pipeline
namespace Api

/-- The outcome of the page-side `fetch('/api/products')` together with
body parsing, as observed by the `getProducts` helpers: the promise
rejects; or a response arrives with an `ok` flag and a JSON body that
either fails to parse (`res.json()` rejects, `none`), parses but has no
`products` field (`some none`), or carries a product list
(`some (some ps)`). -/
inductive FetchOutcome where
  | rejected : FetchOutcome
  | response (ok : Bool) (json : Option (Option (List Product))) :
      FetchOutcome
deriving DecidableEq, Repr

/-- Embedded from the source (`src/app/ssr-standard/page.tsx`,
`getProducts`, lines 11–28): a rejected fetch, a non-ok status (the thrown
error is caught by the surrounding try) and an unparseable body all yield
`[]`; `data.products || []` maps a missing `products` field to `[]`. -/
def ssrGetProducts : FetchOutcome → List Product
  | .rejected => []
  | .response false _ => []
  | .response true none => []
  | .response true (some none) => []
  | .response true (some (some ps)) => ps

/-- Embedded from the source (`src/app/rsc-optimal/page.tsx`,
`getProducts`, lines 12–31): identical logic to the SSR-Standard helper —
the two differ only in the fetch's cache options, which do not affect the
outcome-to-result mapping. -/
def rscGetProducts : FetchOutcome → List Product
  | .rejected => []
  | .response false _ => []
  | .response true none => []
  | .response true (some none) => []
  | .response true (some (some ps)) => ps

/-- What the product section of either page renders: the empty-state
message when the helper returned no products, the grid otherwise
(`products.length === 0` checks in both pages). -/
inductive PageView where
  | emptyState : PageView
  | productGrid (ps : List Product) : PageView
deriving DecidableEq, Repr

/-- The rendering decision shared by both pages. -/
def renderProducts (ps : List Product) : PageView :=
  if ps.length = 0 then .emptyState else .productGrid ps

end Api

open Api

/-- Claim C10: the `getProducts` helpers of the SSR-Standard and
RSC-Optimal pages are total functions of the fetch outcome: every failure
mode — rejection, a non-ok HTTP status, an unparseable body, or a body
lacking a `products` field — yields the empty list, so the page renders
its empty-state message instead of propagating the error; a successful
body yields exactly its product list. -/
theorem claim_C10 (o : FetchOutcome) :
    (o = .rejected ∨ (∃ j, o = .response false j) ∨
        o = .response true none ∨ o = .response true (some none) →
      ssrGetProducts o = [] ∧ rscGetProducts o = [] ∧
      renderProducts (ssrGetProducts o) = .emptyState ∧
      renderProducts (rscGetProducts o) = .emptyState) ∧
    (∀ ps, o = .response true (some (some ps)) →
      ssrGetProducts o = ps ∧ rscGetProducts o = ps) := by
  constructor
  · intro h
    rcases h with h | ⟨j, h⟩ | h | h <;> subst h <;>
      exact ⟨rfl, rfl, rfl, rfl⟩
  · intro ps h
    subst h
    exact ⟨rfl, rfl⟩

/-- Concrete instantiation of `claim_C10`: a rejected fetch and a non-ok
response both render the empty state on both pages, while a good response
passes its products through. -/
theorem claim_C10_witness :
    (ssrGetProducts .rejected = [] ∧ rscGetProducts .rejected = [] ∧
      renderProducts (ssrGetProducts .rejected) = .emptyState ∧
      renderProducts (rscGetProducts .rejected) = .emptyState) ∧
    (ssrGetProducts (.response false none) = [] ∧
      rscGetProducts (.response false none) = [] ∧
      renderProducts (ssrGetProducts (.response false none)) =
        .emptyState ∧
      renderProducts (rscGetProducts (.response false none)) =
        .emptyState) ∧
    (ssrGetProducts (.response true (some (some mockProducts))) =
        mockProducts ∧
      rscGetProducts (.response true (some (some mockProducts))) =
        mockProducts) :=
  ⟨(claim_C10 .rejected).1 (Or.inl rfl),
   (claim_C10 (.response false none)).1 (Or.inr (Or.inl ⟨none, rfl⟩)),
   (claim_C10 (.response true (some (some mockProducts)))).2
     mockProducts rfl⟩

end Pipeline
